import Mathlib

set_option allowUnsafeReducibility true

-- Batteries seals the `Rat` field operations against unfolding; re-open them
-- so that concrete ledger amounts evaluate inside `decide`.  This changes
-- only elaboration transparency, not what the kernel accepts.
attribute [semireducible] Rat.add Rat.mul Rat.sub Rat.inv Rat.neg

/-!
Verification development for the beancount → ERPNext migration engine
(`src/migration/beancount_migrator.py` and `validate_journal_entry` in
`src/erpnext_client.py`).  Python strings are Lean `String`s, Python floats
are modelled as `ℚ`, Python dicts as association lists in insertion order,
raised exceptions as `Except Unit`.  Backend calls are recorded in a trace so
that frame conditions ("no remote call happens") can be stated.
-/

namespace Beancount

/-- Model of Python `str.split()` : split on runs of whitespace, no empty
tokens.  `acc` holds the current token, reversed. -/
def splitWsAux : List Char → List Char → List String
  | [], acc => if acc.isEmpty then [] else [String.mk acc.reverse]
  | c :: cs, acc =>
    if c.isWhitespace then
      if acc.isEmpty then splitWsAux cs [] else String.mk acc.reverse :: splitWsAux cs []
    else splitWsAux cs (c :: acc)

/-- Python `s.split()`. -/
def pySplit (s : String) : List String := splitWsAux s.data []

/-- Split on a single character, keeping empty segments, as Python
`s.split('\n')` / `s.split(':')` do. -/
def splitChAux (sep : Char) : List Char → List Char → List String
  | [], acc => [String.mk acc.reverse]
  | c :: cs, acc =>
    if c = sep then String.mk acc.reverse :: splitChAux sep cs []
    else splitChAux sep cs (c :: acc)

/-- Python `s.split(sep)` for a one-character separator. -/
def pySplitCh (sep : Char) (s : String) : List String := splitChAux sep s.data []

/-- Python `sep.join(parts)` for a one-character separator. -/
def joinCh (sep : Char) : List String → String
  | [] => ""
  | [s] => s
  | s :: rest => s ++ String.mk [sep] ++ joinCh sep rest

/-- Python `s.strip()` : drop leading and trailing whitespace. -/
def pyStrip (s : String) : String :=
  String.mk (((s.data.dropWhile Char.isWhitespace).reverse.dropWhile Char.isWhitespace).reverse)

/-- Python `s.startswith(pre)`. -/
def pyStartswith (s pre : String) : Bool := pre.data.isPrefixOf s.data

/-- Whether `sub` occurs as a contiguous run inside `hay`. -/
def hasInfixList : List Char → List Char → Bool
  | [], sub => sub.isEmpty
  | h :: t, sub => sub.isPrefixOf (h :: t) || hasInfixList t sub

/-- Python `sub in s` on strings. -/
def pyIn (sub s : String) : Bool := hasInfixList s.data sub.data

/-- Python `s.replace(',', '')`. -/
def removeCommas (s : String) : String := String.mk (s.data.filter (fun c => c ≠ ','))

/-- Python `s.replace(':', ' - ')`. -/
def replaceColons (s : String) : String :=
  String.mk (s.data.flatMap (fun c => if c = ':' then " - ".data else [c]))

/-- Numeric value of a digit string (most significant first). -/
def digitsVal (cs : List Char) : Nat := cs.foldl (fun n c => 10 * n + (c.toNat - 48)) 0

/-- Model of Python `float(s)` on the decimal literals this code feeds it:
optional sign, digits with at most one decimal point, at least one digit.
Returns `none` where Python raises `ValueError`. -/
def parsePyFloat (s : String) : Option ℚ :=
  let signAndRest : ℚ × List Char :=
    match s.data with
    | '-' :: rest => (-1, rest)
    | '+' :: rest => (1, rest)
    | rest => (1, rest)
  let sign := signAndRest.1
  let body := signAndRest.2
  let ipart := body.takeWhile (fun c => c ≠ '.')
  let rest := body.drop ipart.length
  match rest with
  | [] =>
    if ipart ≠ [] ∧ ipart.all Char.isDigit then some (sign * digitsVal ipart) else none
  | '.' :: fpart =>
    if (ipart ++ fpart) ≠ [] ∧ ipart.all Char.isDigit ∧ fpart.all Char.isDigit then
      some (sign * ((digitsVal ipart : ℚ) + (digitsVal fpart : ℚ) / (10 ^ fpart.length : ℚ)))
    else none
  | _ => none

/-- A posting as produced by `BeancountParser._parse_postings`: Python dict
with keys account, amount, currency, exchange_rate, target_currency; the
optional entries hold `None` when absent, modelled with `Option`. -/
structure Posting where
  account : String
  amount : ℚ
  currency : Option String
  exchange_rate : Option ℚ
  target_currency : Option String
deriving Repr, DecidableEq

/-- An account record as stored in `self.accounts[account_name]`. -/
structure AccountInfo where
  name : String
  currency : Option String
  type : String
deriving Repr, DecidableEq

/-- One price record `self.prices[date][from_curr] = {'rate': .., 'to': ..}`;
`toCur` models the `'to'` key. -/
structure PriceInfo where
  rate : ℚ
  toCur : String
deriving Repr, DecidableEq

/-- A transaction dict appended by `_parse_transactions`. -/
structure Txn where
  date : String
  description : String
  postings : List Posting
deriving Repr, DecidableEq

/-- The mutable state of a `BeancountParser` instance: `self.accounts`
(dict, insertion order), `self.commodities` (set), `self.transactions`
(list), `self.prices` (dict of dicts). -/
structure ParserState where
  accounts : List (String × AccountInfo)
  commodities : List String
  transactions : List Txn
  prices : List (String × List (String × PriceInfo))
deriving Repr, DecidableEq

/-- A freshly constructed `BeancountParser()`. -/
def emptyState : ParserState := ⟨[], [], [], []⟩

/-- Python dict lookup `d.get(k)` on an insertion-ordered association list. -/
def dictGet? {α : Type} : List (String × α) → String → Option α
  | [], _ => none
  | (k, v) :: t, key => if k = key then some v else dictGet? t key

/-- Python dict assignment `d[k] = v`: replace in place, else append. -/
def dictSet {α : Type} : List (String × α) → String → α → List (String × α)
  | [], k, v => [(k, v)]
  | (k', v') :: t, k, v =>
    if k' = k then (k', v) :: t else (k', v') :: dictSet t k v

/-- Run a sequence of dict assignments. -/
def dictSetAll {α : Type} (d : List (String × α)) (kvs : List (String × α)) :
    List (String × α) :=
  kvs.foldl (fun d kv => dictSet d kv.1 kv.2) d

/-- Python `set.add`, on a duplicate-free list in first-insertion order. -/
def setInsert (l : List String) (x : String) : List String :=
  if x ∈ l then l else l ++ [x]

/-- Add every element of `xs` to the set `l`. -/
def setInsertAll (l : List String) (xs : List String) : List String :=
  xs.foldl setInsert l

/-- Consume a `\d{4}-\d{2}-\d{2}` date at the head of the characters. -/
def matchDateChars : List Char → Option (String × List Char)
  | a :: b :: c :: d :: '-' :: e :: f :: '-' :: g :: h :: rest =>
    if (a.isDigit && b.isDigit && c.isDigit && d.isDigit &&
        e.isDigit && f.isDigit && g.isDigit && h.isDigit) then
      some (String.mk [a, b, c, d, '-', e, f, '-', g, h], rest)
    else none
  | _ => none

/-- Consume `\s+` (at least one whitespace character, then greedily more). -/
def dropWs1 : List Char → Option (List Char)
  | c :: rest => if c.isWhitespace then some (rest.dropWhile Char.isWhitespace) else none
  | [] => none

/-- Consume a literal character sequence. -/
def dropLit : List Char → List Char → Option (List Char)
  | [], cs => some cs
  | _ :: _, [] => none
  | l :: ls, c :: cs => if c = l then dropLit ls cs else none

/-- A regex `\w` character (ASCII range, which is all the ledger uses). -/
def isWordChar (c : Char) : Bool := c.isAlphanum || c = '_'

/-- A regex `[\w:]` character. -/
def isWordColonChar (c : Char) : Bool := isWordChar c || c = ':'

/-- A regex `[\d.]` character. -/
def isDigitDotChar (c : Char) : Bool := c.isDigit || c = '.'

/-- Consume a non-empty maximal run of characters satisfying `p` (regex
greedy `p+`), returning the run as a string. -/
def takeRun1 (p : Char → Bool) (cs : List Char) : Option (String × List Char) :=
  let run := cs.takeWhile p
  if run.isEmpty then none else some (String.mk run, cs.drop run.length)

/-- `_parse_commodities` line pattern `^\d{4}-\d{2}-\d{2}\s+commodity\s+(\w+)`,
applied to one line; yields the commodity symbol. -/
def matchCommodity (line : String) : Option String := do
  let (_, r) ← matchDateChars line.data
  let r ← dropWs1 r
  let r ← dropLit "commodity".data r
  let r ← dropWs1 r
  let (sym, _) ← takeRun1 isWordChar r
  some sym

/-- `_parse_accounts` line pattern
`^\d{4}-\d{2}-\d{2}\s+open\s+([\w:]+)(?:\s+(\w+))?`; yields the account name
and the optional currency. -/
def matchOpen (line : String) : Option (String × Option String) := do
  let (_, r) ← matchDateChars line.data
  let r ← dropWs1 r
  let r ← dropLit "open".data r
  let r ← dropWs1 r
  let (name, r) ← takeRun1 isWordColonChar r
  let cur : Option String := do
    let r2 ← dropWs1 r
    let (c, _) ← takeRun1 isWordChar r2
    some c
  some (name, cur)

/-- `_parse_prices` line pattern
`^(\d{4}-\d{2}-\d{2})\s+price\s+(\w+)\s+([\d.]+)\s+(\w+)`; yields
(date, from-currency, rate text, to-currency).  The rate text is fed to
`float()` afterwards, which can fail. -/
def matchPrice (line : String) : Option (String × String × String × String) := do
  let (date, r) ← matchDateChars line.data
  let r ← dropWs1 r
  let r ← dropLit "price".data r
  let r ← dropWs1 r
  let (fromCur, r) ← takeRun1 isWordChar r
  let r ← dropWs1 r
  let (rateStr, r) ← takeRun1 isDigitDotChar r
  let r ← dropWs1 r
  let (toCur, _) ← takeRun1 isWordChar r
  some (date, fromCur, rateStr, toCur)

/-- Transaction header pattern `^(\d{4}-\d{2}-\d{2})\s+\*\s+"([^"]+)"\s*$`
on a single line; yields (date, description). -/
def matchTxnHeader (line : String) : Option (String × String) := do
  let (date, r) ← matchDateChars line.data
  let r ← dropWs1 r
  let r ← dropLit "*".data r
  let r ← dropWs1 r
  let r ← dropLit "\"".data r
  let (desc, r) ← takeRun1 (fun c => c ≠ '"') r
  let r ← dropLit "\"".data r
  if r.all Char.isWhitespace then some (date, desc) else none

/-- A line belonging to a posting block: regex `^\s+.+` — it starts with a
whitespace character and has at least one further character. -/
def isIndentedLine (line : String) : Bool :=
  match line.data with
  | c :: rest => c.isWhitespace && !rest.isEmpty
  | [] => false

/-- `BeancountParser._classify_account`. -/
def classify_account (account_name : String) : String :=
  if pyStartswith account_name "Assets:" then
    if pyIn "Cash" account_name || pyIn "Bank" account_name then "Bank"
    else if pyIn "Receivable" account_name then "Receivable"
    else "Asset"
  else if pyStartswith account_name "Liabilities:" then
    if pyIn "Payable" account_name then "Payable" else "Liability"
  else if pyStartswith account_name "Income:" then "Income"
  else if pyStartswith account_name "Expenses:" then "Expense"
  else if pyStartswith account_name "Equity:" then "Equity"
  else "Unknown"

/-- One iteration of the loop in `_parse_postings`: a comment line or a line
with fewer than two tokens is skipped (`none`); otherwise the posting is
built, with `float()` failures (on the amount or on the rate after `@`)
raising, modelled as `Except.error`. -/
def parse_posting_line (line : String) : Except Unit (Option Posting) :=
  if pyStartswith (pyStrip line) ";" then .ok none
  else
    let parts := pySplit (pyStrip line)
    if parts.length < 2 then .ok none
    else
      let account := parts.getD 0 ""
      let amount_str := parts.getD 1 ""
      let currency := parts.get? 2
      -- exchange-rate handling happens before the amount is parsed
      let rateStep : Except Unit (Option ℚ × Option String) :=
        if parts.length > 3 ∧ parts.getD 3 "" = "@" then
          if parts.length > 4 then
            match parsePyFloat (parts.getD 4 "") with
            | some r => .ok (some r, parts.get? 5)
            | none => .error ()
          else .ok (none, parts.get? 5)
        else .ok (none, none)
      match rateStep with
      | .error _ => .error ()
      | .ok (exchange_rate, target_currency) =>
        if amount_str = "" then
          .ok (some ⟨account, 0, currency, exchange_rate, target_currency⟩)
        else
          match parsePyFloat (removeCommas amount_str) with
          | some amount =>
            .ok (some ⟨account, amount, currency, exchange_rate, target_currency⟩)
          | none => .error ()

/-- The loop of `_parse_postings` over the split lines. -/
def parse_posting_lines : List String → Except Unit (List Posting)
  | [] => .ok []
  | l :: ls => do
    let p? ← parse_posting_line l
    let rest ← parse_posting_lines ls
    .ok (p?.toList ++ rest)

/-- `BeancountParser._parse_postings`. -/
def parse_postings (postings_text : String) : Except Unit (List Posting) :=
  parse_posting_lines (pySplitCh '\n' (pyStrip postings_text))

/-- One line of the `_parse_transactions` scan.  The accumulator is the
completed blocks plus the block currently being collected (if the previous
line belonged to one): an indented line extends the open block, any other
line closes it and may itself open a new block as a header. -/
def txnScanStep (acc : List (String × String × List String) × Option (String × String × List String))
    (line : String) : List (String × String × List String) × Option (String × String × List String) :=
  let opened : List (String × String × List String) → List (String × String × List String) ×
      Option (String × String × List String) := fun done =>
    match matchTxnHeader line with
    | some (date, desc) => (done, some (date, desc, []))
    | none => (done, none)
  match acc.2 with
  | some blk =>
    if isIndentedLine line then (acc.1, some (blk.1, blk.2.1, blk.2.2 ++ [line]))
    else opened (acc.1 ++ [blk])
  | none => opened acc.1

/-- The matches of the `_parse_transactions` regex, line by line: each
header line grabs the maximal following run of indented lines. -/
def extractTxnBlocks (ls : List String) : List (String × String × List String) :=
  let r := ls.foldl txnScanStep ([], none)
  match r.2 with
  | some blk => r.1 ++ [blk]
  | none => r.1

/-- `BeancountParser._parse_transactions` over the content's lines; the
block text handed to `_parse_postings` is the indented lines re-joined with
newlines. -/
def parse_transactions_pass (ls : List String) : Except Unit (List Txn) :=
  (extractTxnBlocks ls).mapM (fun b => do
    let postings ← parse_postings (joinCh '\n' b.2.2)
    .ok (⟨b.1, b.2.1, postings⟩ : Txn))

/-- The matches of the `_parse_prices` regex over the content's lines,
with `float()` applied to the rate text (raising on failure). -/
def parse_prices_pass (ls : List String) :
    Except Unit (List (String × String × PriceInfo)) :=
  (ls.filterMap matchPrice).mapM (fun m =>
    match parsePyFloat m.2.2.1 with
    | some r => .ok (m.1, m.2.1, ⟨r, m.2.2.2⟩)
    | none => .error ())

/-- `self.prices[date][from_curr] = {...}` with the get-or-create of the
inner dict. -/
def priceSet (d : List (String × List (String × PriceInfo)))
    (t : String × String × PriceInfo) : List (String × List (String × PriceInfo)) :=
  dictSet d t.1 (dictSet ((dictGet? d t.1).getD []) t.2.1 t.2.2)

/-- Apply all price records in file order. -/
def priceSetAll (d : List (String × List (String × PriceInfo)))
    (ts : List (String × String × PriceInfo)) : List (String × List (String × PriceInfo)) :=
  ts.foldl priceSet d

/-- The account records written by `_parse_accounts`, keyed by name. -/
def openRecords (ls : List String) : List (String × AccountInfo) :=
  (ls.filterMap matchOpen).map
    (fun nc => (nc.1, ⟨nc.1, nc.2, classify_account nc.1⟩))

/-- `BeancountParser.parse_file` on file content: the four extraction
passes, mutating the parser state.  A `float()` failure in the price or
posting passes propagates as an exception. -/
def parse_file (st : ParserState) (content : String) : Except Unit ParserState :=
  let ls := pySplitCh '\n' content
  match parse_prices_pass ls with
  | .error e => .error e
  | .ok prices =>
    match parse_transactions_pass ls with
    | .error e => .error e
    | .ok txns =>
      .ok
        { accounts := dictSetAll st.accounts (openRecords ls),
          commodities := setInsertAll st.commodities (ls.filterMap matchCommodity),
          prices := priceSetAll st.prices prices,
          transactions := st.transactions ++ txns }

/-- The hard-coded mapping dict of `get_account_mapping`, with the company
suffix interpolated into each target. -/
def mapping_table (suffix : String) : List (String × String) :=
  [("Assets:Cash:ICICI", "ICICI Bank - " ++ suffix),
   ("Assets:Cash:RazorpayX", "RazorpayX - " ++ suffix),
   ("Assets:AccountsReceivable", "Accounts Receivable - USD - " ++ suffix),
   ("Assets:Upwork:Escrow:Mainland:1851", "Upwork Escrow - Mainland - " ++ suffix),
   ("Assets:Upwork:Escrow:Accel:Ticketing", "Upwork Escrow - Accel - " ++ suffix),
   ("Assets:Upwork:Escrow:P2P:General", "Upwork Escrow - P2P - " ++ suffix),
   ("Liabilities:CreditCard:ICICI", "ICICI Credit Card - " ++ suffix),
   ("Liabilities:CreditCard:SBI", "SBI Credit Card - " ++ suffix),
   ("Income:ClientServices", "Client Services Revenue - " ++ suffix),
   ("Income:ForexGain", "Exchange Gain/Loss - " ++ suffix),
   ("Income:MethodA:Total", "Revenue Method A - " ++ suffix),
   ("Income:MethodB:Total", "Revenue Method B - " ++ suffix),
   ("Income:MethodC:Total", "Revenue Method C - " ++ suffix),
   ("Expenses:Platform:Upwork:ServiceFees", "Upwork Platform Fees - " ++ suffix),
   ("Expenses:Platform:Upwork:WHT", "Upwork Withholding Tax - " ++ suffix),
   ("Expenses:Salaries:TeamCompensation", "Salaries - " ++ suffix),
   ("Expenses:Operations:General", "Operations Expenses - " ++ suffix),
   ("Expenses:Technology:General", "Technology Expenses - " ++ suffix),
   ("Equity:Opening-Balances", "Equity Opening Balance - " ++ suffix)]

/-- `BeancountParser.get_account_mapping`: exact dict hit, else the first
table entry whose key the account starts with, else colon-to-hyphen default
derivation with the company suffix appended. -/
def get_account_mapping (beancount_account : String) (company_suffix : String) : String :=
  let mappings := mapping_table company_suffix
  match dictGet? mappings beancount_account with
  | some v => v
  | none =>
    match mappings.find? (fun p => pyStartswith beancount_account p.1) with
    | some p => p.2
    | none => replaceColons beancount_account ++ " - " ++ company_suffix

/-- One journal-entry line dict built by `_migrate_transactions`.  The
`account_currency` and `exchange_rate` keys exist only on non-INR lines
(outer `Option`); `account_currency` stores the posting's currency value,
which can itself be `None` (inner `Option`). -/
structure JAccount where
  account : String
  debit_in_account_currency : ℚ
  credit_in_account_currency : ℚ
  account_currency : Option (Option String)
  exchange_rate : Option ℚ
deriving Repr, DecidableEq

/-- Python `a or b` on numbers: `a` when truthy (non-zero), else `b`. -/
def pyOrQ (a b : ℚ) : ℚ := if a ≠ 0 then a else b

/-- `validate_journal_entry` from `erpnext_client.py`: compares the sums of
all debit and credit amounts, over all lines regardless of currency, with a
0.01 tolerance.  Returns `false` where Python raises `ValueError`.  The
fallback `acc.get("debit", 0)`/`acc.get("credit", 0)` reads keys the
migrator never writes, hence the second `pyOrQ` argument is 0. -/
def validate_journal_entry (accounts : List JAccount) : Bool :=
  let total_debit := (accounts.map (fun a => pyOrQ a.debit_in_account_currency 0)).sum
  let total_credit := (accounts.map (fun a => pyOrQ a.credit_in_account_currency 0)).sum
  if |total_debit - total_credit| > 1 / 100 then false else true

/-- The debit/credit determination inside `_migrate_transactions`, as a
function of the looked-up account type and the signed amount: for
Income/Liability/Equity the branch is "reversed" (negative → debit),
otherwise non-negative → debit, negative → credit of the absolute value. -/
def determine_debit_credit (account_type : String) (amount : ℚ) : ℚ × ℚ :=
  if account_type = "Income" ∨ account_type = "Liability" ∨ account_type = "Equity" then
    if amount < 0 then (|amount|, 0) else (0, amount)
  else
    if 0 ≤ amount then (amount, 0) else (0, |amount|)

/-- Python `if exchange_rate:` — truthy when present and non-zero. -/
def pyTruthyRate : Option ℚ → Bool
  | none => false
  | some r => r ≠ 0

/-- The per-posting body of the loop in `_migrate_transactions`: build the
journal-entry line and update the `has_forex` flag.  `posting.get('currency',
'INR')` returns the stored value because the parser always writes the key
(possibly `None`). -/
def convert_posting (P : ParserState) (suffix : String) (txn_date : String)
    (posting : Posting) : JAccount × Bool :=
  let erp_account := get_account_mapping posting.account suffix
  let amount := posting.amount
  let currency := posting.currency
  let account_type := ((dictGet? P.accounts posting.account).map AccountInfo.type).getD ""
  let dc := determine_debit_credit account_type amount
  let base : JAccount := ⟨erp_account, dc.1, dc.2, none, none⟩
  if currency ≠ some "INR" then
    let withCur := { base with account_currency := some currency }
    if pyTruthyRate posting.exchange_rate then
      ({ withCur with exchange_rate := posting.exchange_rate }, true)
    else
      match dictGet? P.prices txn_date with
      | some inner =>
        match currency with
        | some c =>
          match dictGet? inner c with
          | some pi => ({ withCur with exchange_rate := some pi.rate }, true)
          | none => (withCur, true)
        | none => (withCur, true)
      | none => (withCur, true)
  else (base, false)

/-- The whole posting loop of `_migrate_transactions` for one transaction:
the journal-entry lines in order, and the final `has_forex` flag. -/
def convert_postings (P : ParserState) (suffix : String) (txn : Txn) :
    List JAccount × Bool :=
  txn.postings.foldl
    (fun acc posting =>
      let r := convert_posting P suffix txn.date posting
      (acc.1 ++ [r.1], acc.2 || r.2))
    ([], false)

/-- Result of `client.get_account` as the migrator observes it: either an
exception of any kind, or a returned record whose Python truthiness is
recorded. -/
inductive GetAccountResult
  | raises
  | returns (truthy : Bool)
deriving Repr, DecidableEq

/-- Result of `client.create_account`. -/
inductive CallResult
  | raises
  | ok
deriving Repr, DecidableEq

/-- Result of `client.create_journal_entry` — on success the created
entry's name (`result['name']`). -/
inductive CreateJEResult
  | raises
  | ok (name : String)
deriving Repr, DecidableEq

/-- The external ERPNext backend, as a deterministic oracle for one run. -/
structure Client where
  get_account : String → GetAccountResult
  create_account : String → String → CallResult
  create_journal_entry : String → String → List JAccount → Bool → CreateJEResult
  submit_journal_entry : String → CallResult

/-- A backend call issued by the migrator, recorded with its identifying
arguments. -/
inductive BackendCall
  | get_account (name : String)
  | create_account (name parent : String)
  | create_journal_entry (posting_date : String)
  | submit_journal_entry (entry_name : String)
deriving Repr, DecidableEq

/-- The parent-account derivation in `_migrate_accounts`: the mapping of
the path minus its last segment, or `"<type> - <suffix>"` for a top-level
name. -/
def parent_account (suffix : String) (a : String × AccountInfo) : String :=
  let parts := pySplitCh ':' a.1
  if parts.length > 1 then get_account_mapping (joinCh ':' parts.dropLast) suffix
  else a.2.type ++ " - " ++ suffix

/-- The body of the account loop in `_migrate_accounts` for one parsed
account, appending the backend calls it issues to the trace.  In dry-run
mode only the mapping is printed and no call happens.  In live mode the
existence check's exceptions are swallowed (`except: pass`) leaving
`existing = None`; creation is skipped only on a truthy result, and a
`create_account` failure is only printed. -/
def migrate_account_step (suffix : String) (dry_run : Bool) (client : Client)
    (trace : List BackendCall) (a : String × AccountInfo) : List BackendCall :=
  let erp_account := get_account_mapping a.1 suffix
  let parent_erp := parent_account suffix a
  if dry_run then trace
  else
    let existing :=
      match client.get_account erp_account with
      | .raises => false
      | .returns b => b
    let trace := trace ++ [.get_account erp_account]
    if existing then trace
    else trace ++ [.create_account erp_account parent_erp]

/-- `_migrate_accounts`: the loop over `self.parser.accounts.items()`,
returning the backend-call trace.  No error counter exists in this phase. -/
def migrate_accounts (P : ParserState) (suffix : String) (dry_run : Bool)
    (client : Client) : List BackendCall :=
  P.accounts.foldl (migrate_account_step suffix dry_run client) []

/-- The body of the transaction loop in `_migrate_transactions`: the
accumulator is `(created_count, error_count, backend-call trace)`.  An
unbalanced entry increments the error count and issues no call; in live mode
a create (and, with `auto_submit`, a submit) is attempted, any exception
incrementing the error count. -/
def migrate_txn_step (P : ParserState) (suffix : String) (dry_run auto_submit : Bool)
    (client : Client) (acc : Nat × Nat × List BackendCall) (txn : Txn) :
    Nat × Nat × List BackendCall :=
  let ef := convert_postings P suffix txn
  if validate_journal_entry ef.1 then
    if dry_run then acc
    else
      match client.create_journal_entry txn.date txn.description ef.1 ef.2 with
      | .raises => (acc.1, acc.2.1 + 1, acc.2.2 ++ [.create_journal_entry txn.date])
      | .ok nm =>
        if auto_submit then
          match client.submit_journal_entry nm with
          | .raises =>
            (acc.1, acc.2.1 + 1,
             acc.2.2 ++ [.create_journal_entry txn.date, .submit_journal_entry nm])
          | .ok =>
            (acc.1 + 1, acc.2.1,
             acc.2.2 ++ [.create_journal_entry txn.date, .submit_journal_entry nm])
        else (acc.1 + 1, acc.2.1, acc.2.2 ++ [.create_journal_entry txn.date])
  else (acc.1, acc.2.1 + 1, acc.2.2)

/-- `_migrate_transactions`: fold over the parsed transactions, starting
from `created_count = 0`, `error_count = 0`. -/
def migrate_transactions (P : ParserState) (suffix : String)
    (dry_run auto_submit : Bool) (client : Client) : Nat × Nat × List BackendCall :=
  P.transactions.foldl (migrate_txn_step P suffix dry_run auto_submit client) (0, 0, [])

/-- The summary of one `migrate_from_file` run: the counters printed at the
end of `_migrate_transactions`, plus the backend-call traces of both phases. -/
structure RunSummary where
  created : Nat
  errors : Nat
  account_calls : List BackendCall
  txn_calls : List BackendCall
deriving Repr, DecidableEq

/-- `BeancountToERPNextMigrator.migrate_from_file` on file content: parse
with a fresh parser, sync accounts, then sync transactions. -/
def migrate_from_file (content : String) (suffix : String)
    (dry_run auto_submit : Bool) (client : Client) : Except Unit RunSummary := do
  let P ← parse_file emptyState content
  let atr := migrate_accounts P suffix dry_run client
  let r := migrate_transactions P suffix dry_run auto_submit client
  .ok ⟨r.1, r.2.1, atr, r.2.2⟩

-- Decidable equality on the `Except` results of the parser and migrator,
-- for concrete evaluation.
deriving instance DecidableEq for Except

/-- The currency of a normalized journal line as the spec's data model reads
it: the annotated account currency when one is present, else the implicit
base currency INR. -/
def lineCurrency (e : JAccount) : String :=
  match e.account_currency with
  | some (some c) => c
  | some none => "INR"
  | none => "INR"

/-- Modelled from the spec: the per-currency balance invariant — "for every
currency present among its postings, the sum of normalized debit amounts
equals the sum of normalized credit amounts within a tolerance of 0.01
currency units". -/
def per_currency_balanced (lines : List JAccount) : Bool :=
  ((lines.map lineCurrency).dedup).all (fun c =>
    let debits := ((lines.filter (fun e => lineCurrency e = c)).map
      (fun e => e.debit_in_account_currency)).sum
    let credits := ((lines.filter (fun e => lineCurrency e = c)).map
      (fun e => e.credit_in_account_currency)).sum
    |debits - credits| ≤ 1 / 100)

/-- A backend oracle on which every call raises. -/
def clientAllRaise : Client :=
  ⟨fun _ => .raises, fun _ _ => .raises, fun _ _ _ _ => .raises, fun _ => .raises⟩

/-- A backend oracle on which every call succeeds; created journal entries
are named "JE1". -/
def clientAllOk : Client :=
  ⟨fun _ => .returns true, fun _ _ => .ok, fun _ _ _ _ => .ok "JE1", fun _ => .ok⟩

/-! ### Concrete fixtures used by individual claims -/

/-- C1 fixture: the spec's opening-balance scenario with the Equity account
name spelled without a hyphen, so that its `open` declaration parses in full
and the migrator's type lookup actually returns class Equity. -/
def c1_content : String :=
  "1960-01-01 open Assets:Cash INR\n1960-01-01 open Equity:OpeningBalances INR\n2024-01-01 * \"Opening Balance\"\n  Assets:Cash 500000.00 INR\n  Equity:OpeningBalances -500000.00 INR\n"

/-- C1 fixture: the scenario transaction. -/
def c1_txn : Txn :=
  ⟨"2024-01-01", "Opening Balance",
   [⟨"Assets:Cash", 500000, some "INR", none, none⟩,
    ⟨"Equity:OpeningBalances", -500000, some "INR", none, none⟩]⟩

/-- C1 fixture: the parser state `c1_content` produces. -/
def c1_state : ParserState :=
  ⟨[("Assets:Cash", ⟨"Assets:Cash", some "INR", "Bank"⟩),
    ("Equity:OpeningBalances", ⟨"Equity:OpeningBalances", some "INR", "Equity"⟩)],
   [], [c1_txn], []⟩

/-- C2 fixture: a transaction whose two lines are in different currencies —
a 100 USD debit against a 100 INR credit.  The aggregate totals agree, the
per-currency totals do not. -/
def c2_txn : Txn :=
  ⟨"2024-02-02", "fx", [⟨"Assets:A", 100, some "USD", none, none⟩,
                        ⟨"Assets:B", -100, some "INR", none, none⟩]⟩

/-- C2 fixture: parser state holding `c2_txn` with both accounts declared. -/
def c2_state : ParserState :=
  ⟨[("Assets:A", ⟨"Assets:A", some "USD", "Asset"⟩),
    ("Assets:B", ⟨"Assets:B", some "INR", "Asset"⟩)],
   [], [c2_txn], []⟩

/-- C2 fixture: a transaction with three postings and a 150.00 aggregate
discrepancy (debits 200, credits 50). -/
def c2_unbalanced_txn : Txn :=
  ⟨"2024-03-03", "broken", [⟨"Assets:A", 100, some "INR", none, none⟩,
                            ⟨"Assets:B", 100, some "INR", none, none⟩,
                            ⟨"Assets:C", -50, some "INR", none, none⟩]⟩

/-- C3 fixture: parser state with one declared cash account, used with a
posting that carries no currency token. -/
def c3_state : ParserState :=
  ⟨[("Assets:Cash", ⟨"Assets:Cash", some "INR", "Bank"⟩)], [], [], []⟩

/-- C3 fixture: the transaction holding the currency-less posting. -/
def c3_txn : Txn := ⟨"2024-01-01", "d", [⟨"Assets:Cash", 100, none, none, none⟩]⟩

/-- C4 fixture: a transaction block whose posting line has a second token
that is not a number. -/
def c4_content : String := "2024-01-01 * \"t\"\n  Assets:Cash abc\n"

/-- C5 fixture: a small ledger with one declared account and one balanced
transaction. -/
def c5_content : String :=
  "2024-01-01 open Assets:Cash INR\n2024-01-01 * \"t\"\n  Assets:Cash 5.00\n  Equity:E -5.00\n"

/-- C6 fixture: a ledger declaring one account and containing no
transactions. -/
def c6_content : String := "1960-01-01 open Assets:X INR\n"

/-- C6 fixture: the parser state `c6_content` produces. -/
def c6_state : ParserState :=
  ⟨[("Assets:X", ⟨"Assets:X", some "INR", "Asset"⟩)], [], [], []⟩

/-! ### Claim theorems -/

/-- C1.  The claim states the sign rule of the spec: for classes Income,
Liability, Equity a negative amount becomes a credit of its absolute value
and a non-negative amount a debit.  The code's branch for those classes is
the reverse: a negative amount becomes a DEBIT of its absolute value and a
non-negative amount a CREDIT.  On a declared Equity-class account the spec's
opening-balance scenario therefore produces two debit lines, fails the
balance check and is excluded with one error.  (In the spec's literal
scenario the account is `Equity:Opening-Balances`, whose `open` line is
truncated to `Equity:Opening` by the `[\w:]+` pattern, so the type lookup
misses and the posting accidentally falls into the non-reversed branch.) -/
theorem c1_sign_rule_reversed_for_income_liability_equity :
    determine_debit_credit "Income" (-23000) = (23000, 0) ∧
    determine_debit_credit "Equity" (-500000) = (500000, 0) ∧
    determine_debit_credit "Liability" 100 = (0, 100) ∧
    parse_file emptyState c1_content = .ok c1_state ∧
    (convert_postings c1_state "PT" c1_txn).1.map
      (fun e => (e.debit_in_account_currency, e.credit_in_account_currency)) =
      [(500000, 0), (500000, 0)] ∧
    validate_journal_entry (convert_postings c1_state "PT" c1_txn).1 = false ∧
    (migrate_transactions c1_state "PT" true false clientAllRaise).2.1 = 1 := by
  decide

/-- C2 counterexample.  The balance check is a single aggregate comparison,
not a per-currency one: a transaction whose lines debit 100 USD and credit
100 INR passes `validate_journal_entry`, violates the spec's per-currency
invariant, and in live mode with `auto_submit` is created and submitted. -/
theorem c2_not_per_currency_counterexample :
    validate_journal_entry (convert_postings c2_state "PT" c2_txn).1 = true ∧
    per_currency_balanced (convert_postings c2_state "PT" c2_txn).1 = false ∧
    migrate_transactions c2_state "PT" false true clientAllOk =
      (1, 0, [.create_journal_entry "2024-02-02", .submit_journal_entry "JE1"]) := by
  decide

/-- C3.  A posting without a currency token is stored with currency `None`;
`posting.get('currency', 'INR')` returns that stored `None` because the key
is always present, so the `currency != 'INR'` test succeeds: the line IS
flagged multi-currency and carries an `account_currency` annotation holding
`None` — contradicting the claim that such postings default to INR and
never set the flag. -/
theorem c3_missing_currency_sets_forex_flag :
    parse_posting_lines ["  Assets:Cash 100.00"] =
      .ok [⟨"Assets:Cash", 100, none, none, none⟩] ∧
    (convert_postings c3_state "PT" c3_txn).2 = true ∧
    (convert_postings c3_state "PT" c3_txn).1.map (fun e => e.account_currency) =
      [some none] := by
  decide

/-- C4 counterexample.  A transaction block containing the indented line
`  Assets:Cash abc` is not silently skipped: `float('abc')` raises and the
whole parse aborts. -/
theorem c4_malformed_amount_aborts_parse :
    parse_file emptyState c4_content = .error () ∧
    parse_postings "  Assets:Cash abc" = .error () := by
  decide

/-- C5 counterexample.  Invoking `parse_file` twice on the same text (on
the same parser instance, as the migrator holds one) does not reproduce the
single-invocation output: the transaction list doubles from one entry to
two. -/
theorem c5_reparse_duplicates_transactions :
    (parse_file emptyState c5_content).map (fun s => s.transactions.length) = .ok 1 ∧
    ((parse_file emptyState c5_content).bind
      (fun s => parse_file s c5_content)).map (fun s => s.transactions.length) = .ok 2 := by
  decide

/-- C6 counterexample.  In a live run whose backend raises on every call,
the single declared account's creation fails, yet the run summary reports
`error_count = 0`: account-synchronization failures are only printed, never
accumulated. -/
theorem c6_account_failure_not_counted :
    clientAllRaise.create_account "Assets - X - PT" "Assets - PT" = .raises ∧
    migrate_from_file c6_content "PT" false false clientAllRaise =
      .ok ⟨0, 0, [.get_account "Assets - X - PT", .create_account "Assets - X - PT" "Assets - PT"],
            []⟩ := by
  decide

/-! ### Helper lemmas about the migration loops -/

theorem migrate_account_step_dry (suffix : String) (client : Client)
    (trace : List BackendCall) (a : String × AccountInfo) :
    migrate_account_step suffix true client trace a = trace := rfl

theorem migrate_txn_step_dry_trace (P : ParserState) (suffix : String)
    (auto_submit : Bool) (client : Client) (acc : Nat × Nat × List BackendCall)
    (txn : Txn) :
    (migrate_txn_step P suffix true auto_submit client acc txn).2.2 = acc.2.2 := by
  simp only [migrate_txn_step]
  rcases hv : validate_journal_entry (convert_postings P suffix txn).1 <;> simp [hv]

theorem foldl_accounts_dry (suffix : String) (client : Client) :
    ∀ (l : List (String × AccountInfo)) (trace : List BackendCall),
      l.foldl (migrate_account_step suffix true client) trace = trace := by
  intro l
  induction l with
  | nil => intro trace; rfl
  | cons a t ih =>
    intro trace
    simpa [List.foldl, migrate_account_step_dry] using ih trace

theorem foldl_txns_dry_trace (P : ParserState) (suffix : String)
    (auto_submit : Bool) (client : Client) :
    ∀ (l : List Txn) (acc : Nat × Nat × List BackendCall),
      (l.foldl (migrate_txn_step P suffix true auto_submit client) acc).2.2 = acc.2.2 := by
  intro l
  induction l with
  | nil => intro acc; rfl
  | cons t ts ih =>
    intro acc
    rw [List.foldl_cons, ih, migrate_txn_step_dry_trace]

/-- The error flag of a single transaction in `_migrate_transactions`:
whether processing it increments `error_count` — an unbalanced entry, or,
in live mode, a raising `create_journal_entry` or (with `auto_submit`) a
raising `submit_journal_entry`. -/
def txn_error_flag (P : ParserState) (suffix : String) (dry_run auto_submit : Bool)
    (client : Client) (txn : Txn) : Bool :=
  let ef := convert_postings P suffix txn
  if validate_journal_entry ef.1 then
    if dry_run then false
    else
      match client.create_journal_entry txn.date txn.description ef.1 ef.2 with
      | .raises => true
      | .ok nm =>
        if auto_submit then
          match client.submit_journal_entry nm with
          | .raises => true
          | .ok => false
        else false
  else true

theorem migrate_txn_step_error_count (P : ParserState) (suffix : String)
    (dry_run auto_submit : Bool) (client : Client) (acc : Nat × Nat × List BackendCall)
    (txn : Txn) :
    (migrate_txn_step P suffix dry_run auto_submit client acc txn).2.1 =
      acc.2.1 + (if txn_error_flag P suffix dry_run auto_submit client txn then 1 else 0) := by
  simp only [migrate_txn_step, txn_error_flag]
  by_cases hv : validate_journal_entry (convert_postings P suffix txn).1 = true
  · by_cases hd : dry_run = true
    · simp [hv, hd]
    · simp only [if_pos hv, if_neg hd]
      split
      · next hc => simp [hc]
      · next nm hc =>
        by_cases ha : auto_submit = true
        · simp only [if_pos ha]
          split
          · next hs => simp [hs]
          · next hs => simp [hs]
        · simp [ha]
  · simp [hv]

theorem foldl_txns_error_count (P : ParserState) (suffix : String)
    (dry_run auto_submit : Bool) (client : Client) :
    ∀ (l : List Txn) (acc : Nat × Nat × List BackendCall),
      (l.foldl (migrate_txn_step P suffix dry_run auto_submit client) acc).2.1 =
        acc.2.1 + l.countP (txn_error_flag P suffix dry_run auto_submit client) := by
  intro l
  induction l with
  | nil => intro acc; simp
  | cons t ts ih =>
    intro acc
    rw [List.foldl_cons, ih, migrate_txn_step_error_count]
    rw [List.countP_cons]
    rcases h : txn_error_flag P suffix dry_run auto_submit client t
    · simp [h]
    · simp [h]
      omega

/-! ### Remaining claim theorems -/

/-- C8.  In dry-run mode the migration issues no backend call at all: the
account-phase trace and the transaction-phase trace are both empty, for any
parsed ledger and any backend. -/
theorem c8_dry_run_issues_no_backend_calls (P : ParserState) (suffix : String)
    (auto_submit : Bool) (client : Client) :
    migrate_accounts P suffix true client = [] ∧
    (migrate_transactions P suffix true auto_submit client).2.2 = [] := by
  constructor
  · exact foldl_accounts_dry suffix client P.accounts []
  · exact foldl_txns_dry_trace P suffix auto_submit client P.transactions (0, 0, [])

/-- C9.  In live mode the per-account step always issues the existence
check; when that check raises (any exception) the result is treated exactly
like an absent account and a `create_account` call follows; the creation is
skipped precisely when the check returns a truthy record. -/
theorem c9_existence_check_exception_treated_as_absent (suffix : String)
    (client : Client) (trace : List BackendCall) (a : String × AccountInfo) :
    migrate_account_step suffix false client trace a =
      trace ++ BackendCall.get_account (get_account_mapping a.1 suffix) ::
        (match client.get_account (get_account_mapping a.1 suffix) with
         | .returns true => []
         | .returns false =>
           [BackendCall.create_account (get_account_mapping a.1 suffix) (parent_account suffix a)]
         | .raises =>
           [BackendCall.create_account (get_account_mapping a.1 suffix) (parent_account suffix a)]) := by
  unfold migrate_account_step
  rcases h : client.get_account (get_account_mapping a.1 suffix) with _ | b
  · simp [h]
  · rcases b <;> simp [h]

/-- C10.  Every normalized line has a non-negative debit and a non-negative
credit with at least one of the two zero, and for a non-zero amount exactly
one of the two is non-zero. -/
theorem c10_normalized_line_sign_invariant (account_type : String) (amount : ℚ) :
    0 ≤ (determine_debit_credit account_type amount).1 ∧
    0 ≤ (determine_debit_credit account_type amount).2 ∧
    ((determine_debit_credit account_type amount).1 = 0 ∨
      (determine_debit_credit account_type amount).2 = 0) ∧
    (amount ≠ 0 →
      ((determine_debit_credit account_type amount).1 ≠ 0 ∧
         (determine_debit_credit account_type amount).2 = 0) ∨
      ((determine_debit_credit account_type amount).1 = 0 ∧
         (determine_debit_credit account_type amount).2 ≠ 0)) := by
  unfold determine_debit_credit
  split_ifs with h1 h2 h3
  · exact ⟨abs_nonneg _, le_refl 0, Or.inr rfl,
      fun ha => Or.inl ⟨abs_ne_zero.mpr ha, rfl⟩⟩
  · exact ⟨le_refl 0, not_lt.mp h2, Or.inl rfl, fun ha => Or.inr ⟨rfl, ha⟩⟩
  · exact ⟨h3, le_refl 0, Or.inr rfl, fun ha => Or.inl ⟨ha, rfl⟩⟩
  · exact ⟨le_refl 0, abs_nonneg _, Or.inl rfl,
      fun ha => Or.inr ⟨rfl, abs_ne_zero.mpr ha⟩⟩

/-- C10 witness: the invariant applied to a Bank-class posting of amount 3. -/
theorem c10_normalized_line_sign_invariant_witness :
    0 ≤ (determine_debit_credit "Bank" 3).1 ∧
    0 ≤ (determine_debit_credit "Bank" 3).2 ∧
    ((determine_debit_credit "Bank" 3).1 = 0 ∨ (determine_debit_credit "Bank" 3).2 = 0) ∧
    (((determine_debit_credit "Bank" 3).1 ≠ 0 ∧ (determine_debit_credit "Bank" 3).2 = 0) ∨
     ((determine_debit_credit "Bank" 3).1 = 0 ∧ (determine_debit_credit "Bank" 3).2 ≠ 0)) :=
  ⟨(c10_normalized_line_sign_invariant "Bank" 3).1,
   (c10_normalized_line_sign_invariant "Bank" 3).2.1,
   (c10_normalized_line_sign_invariant "Bank" 3).2.2.1,
   (c10_normalized_line_sign_invariant "Bank" 3).2.2.2 (by norm_num)⟩

/-- C2 (amended).  The pre-submission check is the aggregate comparison of
`validate_journal_entry`; a transaction failing it is excluded: the step
leaves `created_count` and the backend trace untouched, increments
`error_count` by exactly 1, and the fold continues with the remaining
transactions. -/
theorem c2_amended_unbalanced_excluded (P : ParserState) (suffix : String)
    (dry_run auto_submit : Bool) (client : Client)
    (acc : Nat × Nat × List BackendCall) (txn : Txn) (rest : List Txn)
    (h : validate_journal_entry (convert_postings P suffix txn).1 = false) :
    migrate_txn_step P suffix dry_run auto_submit client acc txn =
      (acc.1, acc.2.1 + 1, acc.2.2) ∧
    List.foldl (migrate_txn_step P suffix dry_run auto_submit client) acc (txn :: rest) =
      List.foldl (migrate_txn_step P suffix dry_run auto_submit client)
        (acc.1, acc.2.1 + 1, acc.2.2) rest := by
  have hstep : migrate_txn_step P suffix dry_run auto_submit client acc txn =
      (acc.1, acc.2.1 + 1, acc.2.2) := by
    simp only [migrate_txn_step]
    simp [h]
  exact ⟨hstep, by rw [List.foldl_cons, hstep]⟩

/-- C2 witness: the spec's 150.00-discrepancy scenario, live mode. -/
theorem c2_amended_unbalanced_excluded_witness :
    validate_journal_entry (convert_postings c2_state "PT" c2_unbalanced_txn).1 = false ∧
    migrate_txn_step c2_state "PT" false false clientAllOk (0, 0, []) c2_unbalanced_txn =
      (0, 0 + 1, []) := by
  refine ⟨by decide, ?_⟩
  exact (c2_amended_unbalanced_excluded c2_state "PT" false false clientAllOk
    (0, 0, []) c2_unbalanced_txn [] (by decide)).1

/-- C6 (amended).  The run summary's `error_count` counts exactly the
transactions whose entry is unbalanced or whose live create/submit call
raises; backend failures of the account-synchronization phase appear in its
call trace but contribute nothing to `error_count`. -/
theorem c6_amended_error_count_formula (content suffix : String)
    (dry_run auto_submit : Bool) (client : Client) (st : ParserState)
    (h : parse_file emptyState content = .ok st) :
    migrate_from_file content suffix dry_run auto_submit client =
      .ok ⟨(migrate_transactions st suffix dry_run auto_submit client).1,
           st.transactions.countP (txn_error_flag st suffix dry_run auto_submit client),
           migrate_accounts st suffix dry_run client,
           (migrate_transactions st suffix dry_run auto_submit client).2.2⟩ := by
  unfold migrate_from_file
  rw [h]
  show Except.ok _ = Except.ok _
  have herr : (migrate_transactions st suffix dry_run auto_submit client).2.1 =
      st.transactions.countP (txn_error_flag st suffix dry_run auto_submit client) := by
    unfold migrate_transactions
    rw [foldl_txns_error_count]
    simp
  rw [herr]

/-- C6 witness: the one-account, zero-transaction ledger in live mode with
an all-raising backend. -/
theorem c6_amended_error_count_formula_witness :
    parse_file emptyState c6_content = .ok c6_state ∧
    migrate_from_file c6_content "PT" false false clientAllRaise =
      .ok ⟨(migrate_transactions c6_state "PT" false false clientAllRaise).1,
           c6_state.transactions.countP (txn_error_flag c6_state "PT" false false clientAllRaise),
           migrate_accounts c6_state "PT" false clientAllRaise,
           (migrate_transactions c6_state "PT" false false clientAllRaise).2.2⟩ :=
  ⟨by decide,
   c6_amended_error_count_formula c6_content "PT" false false clientAllRaise c6_state (by decide)⟩

/-- C4 (amended).  A posting-block line that is a comment or has fewer than
two whitespace-separated tokens is silently skipped and the remaining lines
are still parsed; only a line whose amount (or rate) token fails `float()`
aborts the parse. -/
theorem c4_amended_unrecognized_line_skipped (l : String) (ls : List String)
    (h : pyStartswith (pyStrip l) ";" = true ∨ (pySplit (pyStrip l)).length < 2) :
    parse_posting_lines (l :: ls) = parse_posting_lines ls := by
  have hline : parse_posting_line l = .ok none := by
    unfold parse_posting_line
    by_cases hc : pyStartswith (pyStrip l) ";" = true
    · rw [if_pos hc]
    · rcases h with h | h
      · exact absurd h hc
      · rw [if_neg hc, if_pos h]
  simp only [parse_posting_lines, hline]
  cases hr : parse_posting_lines ls
  · rfl
  · rfl

/-- C4 witness: a comment line followed by a normal posting line. -/
theorem c4_amended_unrecognized_line_skipped_witness :
    (pyStartswith (pyStrip "  ; note") ";" = true ∨
      (pySplit (pyStrip "  ; note")).length < 2) ∧
    parse_posting_lines ["  ; note", "  Assets:Cash 5.00"] =
      parse_posting_lines ["  Assets:Cash 5.00"] :=
  ⟨Or.inl (by decide),
   c4_amended_unrecognized_line_skipped "  ; note" ["  Assets:Cash 5.00"]
     (Or.inl (by decide))⟩

/-! ### The account-mapping lookup order (C7) -/

/-- The spec's "longest mapped key": of the table entries whose key is a
prefix of the source path, the one with the longest key (the earliest on a
tie). -/
def pickLongest : List (String × String) → Option (String × String)
  | [] => none
  | p :: rest =>
    match pickLongest rest with
    | none => some p
    | some q => if q.1.length > p.1.length then some q else some p

/-- Modelled from the spec: the account-mapping lookup order — (1) exact
match in the table, (2) the longest table key that is a prefix of the source
path, (3) default derivation replacing each path separator by " - " and
appending the namespace suffix. -/
def spec_account_mapping (beancount_account : String) (company_suffix : String) : String :=
  let mappings := mapping_table company_suffix
  match dictGet? mappings beancount_account with
  | some v => v
  | none =>
    match pickLongest (mappings.filter (fun p => pyStartswith beancount_account p.1)) with
    | some p => p.2
    | none => replaceColons beancount_account ++ " - " ++ company_suffix

theorem find?_eq_filter_head? {α : Type} (p : α → Bool) :
    ∀ l : List α, l.find? p = (l.filter p).head? := by
  intro l
  induction l with
  | nil => rfl
  | cons a t ih =>
    by_cases h : p a = true
    · simp only [List.find?, List.filter, h]
      rfl
    · simp only [List.find?, List.filter, h, ih]

set_option maxRecDepth 40000 in
/-- No key of the mapping table is a string prefix of another key. -/
theorem mapping_table_keys_not_prefixes (suffix : String) :
    ((mapping_table suffix).map Prod.fst).Pairwise
      (fun a b => ¬(a.data.isPrefixOf b.data = true) ∧ ¬(b.data.isPrefixOf a.data = true)) := by
  have h0 : ((mapping_table "").map Prod.fst).Pairwise
      (fun a b => ¬(a.data.isPrefixOf b.data = true) ∧ ¬(b.data.isPrefixOf a.data = true)) := by
    decide
  exact h0

/-- At most one table entry matches a given source path by prefix. -/
theorem mapping_table_at_most_one_match (acct suffix : String) :
    (mapping_table suffix).filter (fun p => pyStartswith acct p.1) = [] ∨
    ∃ p, (mapping_table suffix).filter (fun p => pyStartswith acct p.1) = [p] := by
  have hpw : (mapping_table suffix).Pairwise
      (fun p q => ¬(p.1.data.isPrefixOf q.1.data = true) ∧
        ¬(q.1.data.isPrefixOf p.1.data = true)) := by
    have h := mapping_table_keys_not_prefixes suffix
    exact (List.pairwise_map).mp h
  have hpf : ((mapping_table suffix).filter
      (fun p => pyStartswith acct p.1)).Pairwise
      (fun p q => ¬(p.1.data.isPrefixOf q.1.data = true) ∧
        ¬(q.1.data.isPrefixOf p.1.data = true)) := hpw.filter _
  rcases hm : (mapping_table suffix).filter (fun p => pyStartswith acct p.1) with _ | ⟨a, t⟩
  · exact Or.inl hm
  · rcases t with _ | ⟨b, t2⟩
    · exact Or.inr ⟨a, hm⟩
    · exfalso
      rw [hm] at hpf
      have hR := (List.pairwise_cons.mp hpf).1 b (List.mem_cons_self b t2)
      have ha : pyStartswith acct a.1 = true := by
        have hamem : a ∈ (mapping_table suffix).filter (fun p => pyStartswith acct p.1) := by
          rw [hm]; exact List.mem_cons_self a (b :: t2)
        exact (List.mem_filter.mp hamem).2
      have hb : pyStartswith acct b.1 = true := by
        have hbmem : b ∈ (mapping_table suffix).filter (fun p => pyStartswith acct p.1) := by
          rw [hm]; exact List.mem_cons_of_mem a (List.mem_cons_self b t2)
        exact (List.mem_filter.mp hbmem).2
      have ha' : a.1.data <+: acct.data := List.isPrefixOf_iff_prefix.mp ha
      have hb' : b.1.data <+: acct.data := List.isPrefixOf_iff_prefix.mp hb
      rcases List.prefix_or_prefix_of_prefix ha' hb' with hab | hba
      · exact hR.1 ( List.isPrefixOf_iff_prefix.mpr hab)
      · exact hR.2 ( List.isPrefixOf_iff_prefix.mpr hba)

/-- C7.  The account mapping realizes the spec's deterministic lookup order
— exact match first, then longest-prefix match, then default derivation —
and maps `Assets:Cash:ICICI` with suffix `PT` verbatim to its table target. -/
theorem c7_account_mapping_lookup_order :
    (∀ acct suffix : String,
      get_account_mapping acct suffix = spec_account_mapping acct suffix) ∧
    get_account_mapping "Assets:Cash:ICICI" "PT" = "ICICI Bank - PT" := by
  constructor
  · intro acct suffix
    simp only [get_account_mapping, spec_account_mapping]
    cases hdg : dictGet? (mapping_table suffix) acct with
    | some v => rfl
    | none =>
      rw [find?_eq_filter_head?]
      rcases mapping_table_at_most_one_match acct suffix with hm | ⟨p, hm⟩
      · rw [hm]; rfl
      · rw [hm]; rfl
  · decide

/-! ### Dictionary lemmas for re-parsing (C5) -/

/-- The key sequence of an association-list dict. -/
def dictKeys {α : Type} (d : List (String × α)) : List String := d.map Prod.fst

theorem dictGet?_dictSet {α : Type} (k : String) (v : α) (j : String) :
    ∀ d : List (String × α),
      dictGet? (dictSet d k v) j = if j = k then some v else dictGet? d j := by
  intro d
  induction d with
  | nil =>
    by_cases h : j = k
    · subst h; simp [dictSet, dictGet?]
    · simp [dictSet, dictGet?, h, Ne.symm h]
  | cons a t ih =>
    rcases a with ⟨ak, av⟩
    by_cases h1 : ak = k
    · by_cases h2 : j = k
      · subst h2; simp [dictSet, dictGet?, h1]
      · have h3 : ¬(ak = j) := fun hh => h2 (hh.symm.trans h1)
        simp [dictSet, dictGet?, h1, h2, h3, Ne.symm h2]
    · by_cases h3 : ak = j
      · have hjk : ¬(j = k) := fun hh => h1 (h3.trans hh)
        simp [dictSet, dictGet?, h1, h3, hjk]
      · simp [dictSet, dictGet?, h1, h3, ih]

theorem mem_dictKeys_dictSet {α : Type} (k : String) (v : α) (j : String) :
    ∀ d : List (String × α),
      (j ∈ dictKeys (dictSet d k v) ↔ j = k ∨ j ∈ dictKeys d) := by
  intro d
  induction d with
  | nil => simp [dictSet, dictKeys]
  | cons a t ih =>
    rcases a with ⟨ak, av⟩
    by_cases h1 : ak = k
    · subst h1
      simp [dictSet, dictKeys]
    · simp only [dictSet, h1, ite_false]
      simp only [dictKeys, List.map_cons, List.mem_cons] at ih ⊢
      rw [ih]
      tauto

theorem dictKeys_dictSet_of_mem {α : Type} (k : String) (v : α) :
    ∀ d : List (String × α), k ∈ dictKeys d →
      dictKeys (dictSet d k v) = dictKeys d := by
  intro d
  induction d with
  | nil => intro h; simp [dictKeys] at h
  | cons a t ih =>
    intro h
    rcases a with ⟨ak, av⟩
    by_cases h1 : ak = k
    · simp [dictSet, h1, dictKeys]
    · simp only [dictKeys, List.map_cons, List.mem_cons] at h
      rcases h with h | h
      · exact absurd h.symm h1
      · simp only [dictSet, h1, ite_false, dictKeys, List.map_cons]
        have := ih h
        simp only [dictKeys] at this
        rw [this]

theorem dictKeys_dictSet_nodup {α : Type} (k : String) (v : α) :
    ∀ d : List (String × α), (dictKeys d).Nodup →
      (dictKeys (dictSet d k v)).Nodup := by
  intro d
  induction d with
  | nil => intro _; simp [dictSet, dictKeys]
  | cons a t ih =>
    intro h
    rcases a with ⟨ak, av⟩
    simp only [dictKeys, List.map_cons, List.nodup_cons] at h
    by_cases h1 : ak = k
    · simp only [dictSet, h1, ite_true, dictKeys, List.map_cons, List.nodup_cons]
      exact ⟨h1 ▸ h.1, h.2⟩
    · simp only [dictSet, h1, ite_false, dictKeys, List.map_cons, List.nodup_cons]
      constructor
      · intro hmem
        have hmem2 : ak ∈ dictKeys (dictSet t k v) := by
          simpa [dictKeys] using hmem
        rw [mem_dictKeys_dictSet] at hmem2
        rcases hmem2 with hh | hh
        · exact h1 hh
        · exact h.1 (by simpa [dictKeys] using hh)
      · exact ih h.2

def lastVal {α : Type} (j : String) : List (String × α) → Option α
  | [] => none
  | (k, v) :: t =>
    match lastVal j t with
    | some w => some w
    | none => if k = j then some v else none

theorem dictGet?_dictSetAll {α : Type} (j : String) :
    ∀ (kvs : List (String × α)) (d : List (String × α)),
      dictGet? (dictSetAll d kvs) j =
        match lastVal j kvs with
        | some w => some w
        | none => dictGet? d j := by
  intro kvs
  induction kvs with
  | nil => intro d; rfl
  | cons kv t ih =>
    intro d
    rcases kv with ⟨k, v⟩
    show dictGet? (dictSetAll (dictSet d k v) t) j = _
    rw [ih]
    simp only [lastVal]
    rcases hl : lastVal j t with _ | w
    · simp only []
      rw [dictGet?_dictSet]
      by_cases h : k = j
      · simp [h]
      · simp [h, Ne.symm h]
    · rfl

theorem mem_dictKeys_dictSetAll {α : Type} (j : String) :
    ∀ (kvs : List (String × α)) (d : List (String × α)),
      (j ∈ dictKeys (dictSetAll d kvs) ↔ j ∈ dictKeys kvs ∨ j ∈ dictKeys d) := by
  intro kvs
  induction kvs with
  | nil => intro d; simp [dictSetAll, dictKeys]
  | cons kv t ih =>
    intro d
    show j ∈ dictKeys (dictSetAll (dictSet d kv.1 kv.2) t) ↔ _
    rw [ih, mem_dictKeys_dictSet]
    simp [dictKeys]
    tauto

theorem dictKeys_dictSetAll_of_subset {α : Type} :
    ∀ (kvs : List (String × α)) (d : List (String × α)),
      (∀ kv ∈ kvs, kv.1 ∈ dictKeys d) →
      dictKeys (dictSetAll d kvs) = dictKeys d := by
  intro kvs
  induction kvs with
  | nil => intro d _; rfl
  | cons kv t ih =>
    intro d h
    show dictKeys (dictSetAll (dictSet d kv.1 kv.2) t) = _
    have h1 : kv.1 ∈ dictKeys d := h kv (List.mem_cons_self kv t)
    have hk : dictKeys (dictSet d kv.1 kv.2) = dictKeys d :=
      dictKeys_dictSet_of_mem kv.1 kv.2 d h1
    rw [ih (dictSet d kv.1 kv.2) (fun kv2 hm => by
      rw [hk]; exact h kv2 (List.mem_cons_of_mem kv hm)), hk]

theorem dictKeys_dictSetAll_nodup {α : Type} :
    ∀ (kvs : List (String × α)) (d : List (String × α)),
      (dictKeys d).Nodup → (dictKeys (dictSetAll d kvs)).Nodup := by
  intro kvs
  induction kvs with
  | nil => intro d h; exact h
  | cons kv t ih =>
    intro d h
    exact ih (dictSet d kv.1 kv.2) (dictKeys_dictSet_nodup kv.1 kv.2 d h)

theorem dictGet?_eq_none_of_not_mem {α : Type} (j : String) :
    ∀ d : List (String × α), j ∉ dictKeys d → dictGet? d j = none := by
  intro d
  induction d with
  | nil => intro _; rfl
  | cons a t ih =>
    intro h
    simp only [dictKeys, List.map_cons, List.mem_cons] at h
    push_neg at h
    simp only [dictGet?, if_neg (fun hh : a.1 = j => h.1 hh.symm)]
    exact ih (by simpa [dictKeys] using h.2)

theorem mem_dictKeys_of_dictGet?_eq_some {α : Type} (j : String) (w : α) :
    ∀ d : List (String × α), dictGet? d j = some w → j ∈ dictKeys d := by
  intro d
  induction d with
  | nil => intro h; simp [dictGet?] at h
  | cons a t ih =>
    intro h
    by_cases hc : a.1 = j
    · simp [dictKeys, hc]
    · simp only [dictGet?, if_neg hc] at h
      simp only [dictKeys, List.map_cons, List.mem_cons]
      exact Or.inr (by simpa [dictKeys] using ih h)

theorem dict_ext {α : Type} :
    ∀ (d1 d2 : List (String × α)),
      (dictKeys d1).Nodup → dictKeys d1 = dictKeys d2 →
      (∀ j, dictGet? d1 j = dictGet? d2 j) → d1 = d2 := by
  intro d1
  induction d1 with
  | nil =>
    intro d2 _ hk _
    cases d2 with
    | nil => rfl
    | cons b t2 => simp [dictKeys] at hk
  | cons a t1 ih =>
    intro d2 hnd hk hg
    cases d2 with
    | nil => simp [dictKeys] at hk
    | cons b t2 =>
      rcases a with ⟨ak, av⟩
      rcases b with ⟨bk, bv⟩
      simp only [dictKeys, List.map_cons, List.cons.injEq] at hk
      have hab : ak = bk := hk.1
      have hktail : dictKeys t1 = dictKeys t2 := hk.2
      simp only [dictKeys, List.map_cons, List.nodup_cons] at hnd
      have hv : av = bv := by
        have h1 := hg ak
        simp only [dictGet?, if_pos rfl] at h1
        rw [if_pos hab.symm] at h1
        exact Option.some.inj h1
      have htail : t1 = t2 := by
        apply ih t2 (by simpa [dictKeys] using hnd.2) hktail
        intro j
        by_cases hj : j = ak
        · have hm1 : j ∉ dictKeys t1 := by
            rw [hj]; simpa [dictKeys] using hnd.1
          have hm2 : j ∉ dictKeys t2 := by
            rw [hj, ← hktail]; simpa [dictKeys] using hnd.1
          rw [dictGet?_eq_none_of_not_mem j t1 hm1,
              dictGet?_eq_none_of_not_mem j t2 hm2]
        · have hgj := hg j
          rw [show dictGet? ((ak, av) :: t1) j = dictGet? t1 j by
                simp only [dictGet?, if_neg (fun hh : ak = j => hj hh.symm)],
              show dictGet? ((bk, bv) :: t2) j = dictGet? t2 j by
                simp only [dictGet?,
                  if_neg (fun hh : bk = j => hj (hab ▸ hh : ak = j).symm)]] at hgj
          exact hgj
      rw [hab, hv, htail]

theorem dictSetAll_idem_from_nil {α : Type} (kvs : List (String × α)) :
    dictSetAll (dictSetAll [] kvs) kvs = dictSetAll [] kvs := by
  have hnd0 : (dictKeys ([] : List (String × α))).Nodup := by simp [dictKeys]
  have hnd : (dictKeys (dictSetAll ([] : List (String × α)) kvs)).Nodup :=
    dictKeys_dictSetAll_nodup kvs [] hnd0
  apply dict_ext _ _ (dictKeys_dictSetAll_nodup kvs _ hnd)
  · apply dictKeys_dictSetAll_of_subset
    intro kv hm
    rw [mem_dictKeys_dictSetAll]
    exact Or.inl (List.mem_map_of_mem Prod.fst hm)
  · intro j
    rw [dictGet?_dictSetAll]
    rcases hl : lastVal j kvs with _ | w
    · simp only [hl]
    · simp only [hl]
      rw [dictGet?_dictSetAll, hl]

/-- The effect of the price pass on the inner dict stored at one date. -/
def applyPricesFor (j : String) (d0 : Option (List (String × PriceInfo)))
    (ts : List (String × String × PriceInfo)) : Option (List (String × PriceInfo)) :=
  ts.foldl (fun acc t => if t.1 = j then some (dictSet (acc.getD []) t.2.1 t.2.2) else acc) d0

theorem dictGet?_priceSetAll (j : String) :
    ∀ (ts : List (String × String × PriceInfo)) (d : List (String × List (String × PriceInfo))),
      dictGet? (priceSetAll d ts) j = applyPricesFor j (dictGet? d j) ts := by
  intro ts
  induction ts with
  | nil => intro d; rfl
  | cons t rest ih =>
    intro d
    show dictGet? (priceSetAll (priceSet d t) rest) j = _
    rw [ih]
    show _ = applyPricesFor j
      (if t.1 = j then some (dictSet ((dictGet? d j).getD []) t.2.1 t.2.2) else dictGet? d j) rest
    by_cases h : t.1 = j
    · rw [if_pos h]
      unfold priceSet
      rw [dictGet?_dictSet]
      rw [if_pos (h.symm : j = t.1), h]
    · rw [if_neg h]
      unfold priceSet
      rw [dictGet?_dictSet]
      rw [if_neg (fun hh : j = t.1 => h hh.symm)]

theorem mem_dictKeys_priceSetAll (j : String) :
    ∀ (ts : List (String × String × PriceInfo)) (d : List (String × List (String × PriceInfo))),
      (j ∈ dictKeys (priceSetAll d ts) ↔ j ∈ ts.map (fun t => t.1) ∨ j ∈ dictKeys d) := by
  intro ts
  induction ts with
  | nil => intro d; simp [priceSetAll]
  | cons t rest ih =>
    intro d
    show j ∈ dictKeys (priceSetAll (priceSet d t) rest) ↔ _
    rw [ih]
    unfold priceSet
    rw [mem_dictKeys_dictSet]
    simp only [List.map_cons, List.mem_cons]
    tauto

theorem dictKeys_priceSetAll_of_subset :
    ∀ (ts : List (String × String × PriceInfo)) (d : List (String × List (String × PriceInfo))),
      (∀ t ∈ ts, t.1 ∈ dictKeys d) →
      dictKeys (priceSetAll d ts) = dictKeys d := by
  intro ts
  induction ts with
  | nil => intro d _; rfl
  | cons t rest ih =>
    intro d h
    show dictKeys (priceSetAll (priceSet d t) rest) = _
    have h1 : t.1 ∈ dictKeys d := h t (List.mem_cons_self t rest)
    have hk : dictKeys (priceSet d t) = dictKeys d :=
      dictKeys_dictSet_of_mem t.1 _ d h1
    rw [ih (priceSet d t) (fun t2 hm => by
      rw [hk]; exact h t2 (List.mem_cons_of_mem t hm)), hk]

theorem dictKeys_priceSetAll_nodup :
    ∀ (ts : List (String × String × PriceInfo)) (d : List (String × List (String × PriceInfo))),
      (dictKeys d).Nodup → (dictKeys (priceSetAll d ts)).Nodup := by
  intro ts
  induction ts with
  | nil => intro d h; exact h
  | cons t rest ih =>
    intro d h
    exact ih (priceSet d t) (dictKeys_dictSet_nodup t.1 _ d h)

theorem applyPricesFor_no_match (j : String) :
    ∀ (ts : List (String × String × PriceInfo)) (d0 : Option (List (String × PriceInfo))),
      ts.filter (fun t => t.1 = j) = [] → applyPricesFor j d0 ts = d0 := by
  intro ts
  induction ts with
  | nil => intro d0 _; rfl
  | cons t rest ih =>
    intro d0 h
    by_cases ht : t.1 = j
    · rw [List.filter_cons_of_pos (by simpa using ht)] at h
      exact absurd h (List.cons_ne_nil _ _)
    · rw [List.filter_cons_of_neg (by simpa using ht)] at h
      show applyPricesFor j (if t.1 = j then _ else d0) rest = d0
      rw [if_neg ht]
      exact ih d0 h

theorem applyPricesFor_match (j : String) :
    ∀ (ts : List (String × String × PriceInfo)) (d0 : Option (List (String × PriceInfo))),
      ts.filter (fun t => t.1 = j) ≠ [] →
      applyPricesFor j d0 ts =
        some (dictSetAll (d0.getD [])
          ((ts.filter (fun t => t.1 = j)).map (fun t => (t.2.1, t.2.2)))) := by
  intro ts
  induction ts with
  | nil => intro d0 h; exact absurd rfl h
  | cons t rest ih =>
    intro d0 h
    by_cases ht : t.1 = j
    · rw [List.filter_cons_of_pos (by simpa using ht)]
      show applyPricesFor j (if t.1 = j then
          some (dictSet (d0.getD []) t.2.1 t.2.2) else d0) rest = _
      rw [if_pos ht]
      by_cases hf : rest.filter (fun t => t.1 = j) = []
      · rw [applyPricesFor_no_match j rest _ hf, hf]
        rfl
      · rw [ih _ hf]
        rfl
    · rw [List.filter_cons_of_neg (by simpa using ht)]
      rw [List.filter_cons_of_neg (by simpa using ht)] at h
      show applyPricesFor j (if t.1 = j then
          some (dictSet (d0.getD []) t.2.1 t.2.2) else d0) rest = _
      rw [if_neg ht]
      exact ih d0 h

theorem priceSetAll_idem_from_nil (ts : List (String × String × PriceInfo)) :
    priceSetAll (priceSetAll [] ts) ts = priceSetAll [] ts := by
  have hnd0 : (dictKeys ([] : List (String × List (String × PriceInfo)))).Nodup := by
    simp [dictKeys]
  have hnd : (dictKeys (priceSetAll [] ts)).Nodup :=
    dictKeys_priceSetAll_nodup ts [] hnd0
  apply dict_ext _ _ (dictKeys_priceSetAll_nodup ts _ hnd)
  · apply dictKeys_priceSetAll_of_subset
    intro t hm
    rw [mem_dictKeys_priceSetAll]
    exact Or.inl (List.mem_map_of_mem (fun t => t.1) hm)
  · intro j
    rw [dictGet?_priceSetAll, dictGet?_priceSetAll]
    by_cases hf : ts.filter (fun t => t.1 = j) = []
    · rw [applyPricesFor_no_match j ts _ hf, applyPricesFor_no_match j ts _ hf]
    · rw [applyPricesFor_match j ts _ hf, applyPricesFor_match j ts _ hf]
      simp only [Option.getD_some, dictGet?, Option.getD_none]
      rw [dictSetAll_idem_from_nil]

theorem mem_setInsert (x y : String) (l : List String) :
    y ∈ setInsert l x ↔ y = x ∨ y ∈ l := by
  unfold setInsert
  by_cases h : x ∈ l
  · rw [if_pos h]
    constructor
    · exact Or.inr
    · rintro (rfl | hy)
      · exact h
      · exact hy
  · rw [if_neg h]
    simp [List.mem_append]
    tauto

theorem mem_setInsertAll (y : String) :
    ∀ (xs l : List String), y ∈ setInsertAll l xs ↔ y ∈ l ∨ y ∈ xs := by
  intro xs
  induction xs with
  | nil => intro l; simp [setInsertAll]
  | cons x t ih =>
    intro l
    show y ∈ setInsertAll (setInsert l x) t ↔ _
    rw [ih, mem_setInsert]
    simp only [List.mem_cons]
    tauto

theorem setInsertAll_of_subset :
    ∀ (xs l : List String), (∀ x ∈ xs, x ∈ l) → setInsertAll l xs = l := by
  intro xs
  induction xs with
  | nil => intro l _; rfl
  | cons x t ih =>
    intro l h
    show setInsertAll (setInsert l x) t = l
    have hx : x ∈ l := h x (List.mem_cons_self x t)
    rw [show setInsert l x = l from if_pos hx]
    exact ih l (fun y hy => h y (List.mem_cons_of_mem x hy))

theorem setInsertAll_idem_from_nil (xs : List String) :
    setInsertAll (setInsertAll [] xs) xs = setInsertAll [] xs := by
  apply setInsertAll_of_subset
  intro x hx
  rw [mem_setInsertAll]
  exact Or.inr hx

/-- C5 (amended).  Parsing is deterministic, but `parse_file` accumulates
state on the parser instance: a second invocation on the same text leaves
`accounts`, `commodities` and `prices` unchanged (their dict/set writes are
idempotent) while appending a second copy of every transaction. -/
theorem c5_amended_reparse_duplicates_only_transactions (content : String)
    (st : ParserState) (h : parse_file emptyState content = .ok st) :
    parse_file st content = .ok { st with transactions := st.transactions ++ st.transactions } := by
  simp only [parse_file] at h ⊢
  generalize hpp : parse_prices_pass (pySplitCh '\n' content) = pp at h ⊢
  generalize htp : parse_transactions_pass (pySplitCh '\n' content) = tp at h ⊢
  rcases pp with e | prices
  · simp at h
  rcases tp with e | txns
  · simp at h
  dsimp only at h ⊢
  injection h with hst
  subst hst
  refine congrArg Except.ok ?_
  simp only [emptyState, List.nil_append]
  rw [ParserState.mk.injEq]
  exact ⟨dictSetAll_idem_from_nil _, setInsertAll_idem_from_nil _, rfl,
    priceSetAll_idem_from_nil _⟩

/-- C5 fixture: the parser state `c5_content` produces. -/
def c5_state : ParserState :=
  ⟨[("Assets:Cash", ⟨"Assets:Cash", some "INR", "Bank"⟩)], [],
   [⟨"2024-01-01", "t",
     [⟨"Assets:Cash", 5, none, none, none⟩, ⟨"Equity:E", -5, none, none, none⟩]⟩], []⟩

/-- C5 witness: the amended statement applied to the concrete small ledger. -/
theorem c5_amended_reparse_duplicates_only_transactions_witness :
    parse_file emptyState c5_content = .ok c5_state ∧
    parse_file c5_state c5_content =
      .ok { c5_state with transactions := c5_state.transactions ++ c5_state.transactions } :=
  ⟨by decide,
   c5_amended_reparse_duplicates_only_transactions c5_content c5_state (by decide)⟩

end Beancount
